import Mathlib

/-!
Verification of the `database-optimizer` CSV import core.

This file shallowly embeds the Go source of the repository:

* `importer/csv_importer.go` — the row codec (`parseRow` with its local
  helpers `parseInt`, `parseFloat`, `parseBool`, `parseString`), the batch
  statement builder (`executeBatch`), the sequential importer
  (`ImportFromFile`) and the concurrent importer
  (`ImportFromFileGoRoutine`);
* `profiler/profiler.go` — the `Profiler` start/end timing registry.

Go library functions used by the source (`strconv.Atoi`,
`strconv.ParseFloat`, `strings.TrimSpace`, `strings.ToLower`,
`strings.Join`) are modelled explicitly below.  I/O is made explicit: the
CSV file becomes the list of its records after the header, the database
becomes a write oracle recording which batch-write calls succeed, and
`time.Now` becomes an explicit clock argument.
-/

/-! ## Go string primitives -/

/-- Model of Go `unicode.IsSpace`: the Unicode `White_Space` property,
which is exactly the set tested by `strings.TrimSpace`. -/
def goIsSpace (c : Char) : Bool :=
  c.toNat = 0x9 || c.toNat = 0xA || c.toNat = 0xB || c.toNat = 0xC ||
  c.toNat = 0xD || c.toNat = 0x20 || c.toNat = 0x85 || c.toNat = 0xA0 ||
  c.toNat = 0x1680 || (0x2000 ≤ c.toNat && c.toNat ≤ 0x200A) ||
  c.toNat = 0x2028 || c.toNat = 0x2029 || c.toNat = 0x202F ||
  c.toNat = 0x205F || c.toNat = 0x3000

/-- Model of Go `strings.TrimSpace`: drop leading and trailing
white-space characters. -/
def goTrimSpace (s : String) : String :=
  String.mk (((s.data.dropWhile goIsSpace).reverse.dropWhile goIsSpace).reverse)

/-- ASCII lower-casing of one character.  Go `strings.ToLower` applies the
full Unicode lowering, but no character outside `A`-`Z` lowers to any of
the ASCII letters of `"true"`, `"t"`, `"1"`, so for every comparison the
source performs the ASCII map is equivalent. -/
def goToLowerChar (c : Char) : Char :=
  if 'A' ≤ c ∧ c ≤ 'Z' then Char.ofNat (c.toNat + 32) else c

/-- Model of Go `strings.ToLower` (see `goToLowerChar`). -/
def goToLower (s : String) : String :=
  String.mk (s.data.map goToLowerChar)

/-- Numeric value of a list of ASCII decimal digits, most significant
first. -/
def digitsToNat (ds : List Char) : Nat :=
  ds.foldl (fun a c => a * 10 + (c.toNat - 48)) 0

/-- Model of Go `strconv.Atoi` on a 64-bit platform: an optional single
sign followed by one or more ASCII decimal digits, rejected when the
signed value leaves the `int64` range (`strconv.ErrRange`). -/
def goAtoi (s : String) : Option Int :=
  let sd : Bool × List Char :=
    match s.data with
    | '+' :: r => (false, r)
    | '-' :: r => (true, r)
    | _ => (false, s.data)
  if sd.2.isEmpty || !sd.2.all Char.isDigit then none
  else
    let v : Int :=
      if sd.1 then -(digitsToNat sd.2 : Int) else (digitsToNat sd.2 : Int)
    if v < -(2 ^ 63) ∨ 2 ^ 63 - 1 < v then none else some v

/-! ## Go `strconv.ParseFloat`

The source swallows the parsed `float64` into an `interface{}` cell; the
model keeps the mathematically exact value of the accepted literal (a
rational, or an infinity/NaN token) instead of its binary64 rounding.
Acceptance — which input strings parse without error — is modelled from
`strconv`'s grammar: special values, optional sign, decimal or hex
mantissa with Go's underscore-separator rule, exponent, whole-string
consumption, and the overflow (`ErrRange`) check.  Values that round to
an infinity, i.e. with magnitude at least `(2^54 - 1) * 2^970`, are
errors. -/

/-- Exact parse results of Go `strconv.ParseFloat`. -/
inductive GoFloat where
  | finite (q : ℚ)
  | inf (neg : Bool)
  | nan
deriving DecidableEq, Repr

/-- Split an optional leading sign; `true` means negative. -/
def splitSign (cs : List Char) : Bool × List Char :=
  match cs with
  | '+' :: r => (false, r)
  | '-' :: r => (true, r)
  | _ => (false, cs)

/-- Take the maximal run of digit or underscore characters. -/
def takeRun (isDig : Char → Bool) (cs : List Char) : List Char × List Char :=
  (cs.takeWhile (fun c => isDig c || c = '_'), cs.dropWhile (fun c => isDig c || c = '_'))

/-- State transition for Go `strconv`'s underscore rule: the state is
`some b` with `b` true when the previous character was a digit (or the
base prefix); an underscore is legal only after a digit/prefix. -/
def runStep (st : Option Bool) (c : Char) : Option Bool :=
  match st with
  | none => none
  | some prevDig => if c = '_' then (if prevDig then some false else none) else some true

/-- Go `strconv.underscoreOK` restricted to one digit run: underscores
must separate digits (a run directly after the `0x` prefix may start
with one), and the run must not end in an underscore. -/
def runOk (afterPrefix : Bool) (run : List Char) : Bool :=
  match run.foldl runStep (some afterPrefix) with
  | none => false
  | some last => run.isEmpty || last

/-- Remove the underscore digit separators from a run. -/
def stripUnderscores (run : List Char) : List Char :=
  run.filter (fun c => c != '_')

/-- Hexadecimal digit test, as in Go `strconv`'s `readFloat` hex path. -/
def isHexDigitGo (c : Char) : Bool :=
  c.isDigit || ('a' ≤ goToLowerChar c ∧ goToLowerChar c ≤ 'f')

/-- Numeric value of a list of hexadecimal digits, most significant
first. -/
def hexDigitsToNat (ds : List Char) : Nat :=
  ds.foldl (fun a c => a * 16 + (if c.isDigit then c.toNat - 48 else (goToLowerChar c).toNat - 87)) 0

/-- Result of scanning a mantissa: integer-part digits and fraction
digits (underscores stripped), the unconsumed input, and whether the
scan was well formed (underscore rule satisfied, at least one digit). -/
structure MantScan where
  ok : Bool
  digits : List Char
  frac : List Char
  rest : List Char
deriving DecidableEq, Repr

/-- Scan `digits [. digits]` with Go's underscore rule.  `afterPrefix`
is true on the hex path, where the first run may open with an
underscore directly after `0x`. -/
def scanMant (isDig : Char → Bool) (afterPrefix : Bool) (cs : List Char) : MantScan :=
  let ir := takeRun isDig cs
  let fr : List Char × List Char × Bool :=
    match ir.2 with
    | '.' :: r =>
      let t := takeRun isDig r
      (t.1, t.2, runOk false t.1)
    | _ => ([], ir.2, true)
  { ok := runOk afterPrefix ir.1 && fr.2.2 &&
      !((stripUnderscores ir.1).isEmpty && (stripUnderscores fr.1).isEmpty),
    digits := stripUnderscores ir.1,
    frac := stripUnderscores fr.1,
    rest := fr.2.1 }

/-- Result of scanning an exponent suffix (after its `e`/`p` marker). -/
structure ExpScan where
  ok : Bool
  val : Int
  rest : List Char
deriving DecidableEq, Repr

/-- Scan `[+-] digits` (decimal, underscore rule) after an exponent
marker. -/
def scanExp (cs : List Char) : ExpScan :=
  let sr := splitSign cs
  let er := takeRun Char.isDigit sr.2
  let ds := stripUnderscores er.1
  { ok := runOk false er.1 && !ds.isEmpty,
    val := if sr.1 then -(digitsToNat ds : Int) else (digitsToNat ds : Int),
    rest := er.2 }

/-- Smallest magnitude that binary64 round-to-nearest-even sends to
infinity: `maxFloat64 + 2^970 = (2^54 - 1) * 2^970`.  `strconv`
reports `ErrRange` exactly for such magnitudes. -/
def overflowBound : ℚ := mkRat (((2 ^ 54 - 1) * 2 ^ 970 : Nat) : Int) 1

/-- Assemble `± m * base ^ e` exactly and apply the sign and the
binary64 overflow check; an overflowing magnitude is `strconv.ErrRange`
and hence a parse failure for the importer's helper. -/
def mkFloat (neg : Bool) (m : Nat) (base : Nat) (e : Int) : Option GoFloat :=
  let mag : ℚ :=
    match e with
    | .ofNat k => mkRat ((m * base ^ k : Nat) : Int) 1
    | .negSucc k => mkRat ((m : Nat) : Int) (base ^ (k + 1))
  if overflowBound ≤ mag then none
  else some (.finite (if neg then -mag else mag))

/-- Special values: `inf`/`infinity` with optional sign, unsigned `nan`,
case-insensitively, consuming the whole string. -/
def parseSpecial (cs : List Char) : Option GoFloat :=
  let low := cs.map goToLowerChar
  if low = "nan".data then some .nan
  else
    let sr := splitSign low
    if sr.2 = "inf".data ∨ sr.2 = "infinity".data then some (.inf sr.1) else none

/-- Decimal mantissa with optional `e` exponent; whole string must be
consumed. -/
def parseDecFloat (neg : Bool) (cs : List Char) : Option GoFloat :=
  let m := scanMant Char.isDigit false cs
  if !m.ok then none
  else
    match m.rest with
    | [] =>
      mkFloat neg (digitsToNat (m.digits ++ m.frac)) 10 (0 - (m.frac.length : Int))
    | e :: r =>
      if e = 'e' ∨ e = 'E' then
        let ex := scanExp r
        if ex.ok && ex.rest.isEmpty then
          mkFloat neg (digitsToNat (m.digits ++ m.frac)) 10 (ex.val - (m.frac.length : Int))
        else none
      else none

/-- Hexadecimal mantissa (input after `0x`) with its mandatory `p`
exponent; whole string must be consumed. -/
def parseHexFloat (neg : Bool) (cs : List Char) : Option GoFloat :=
  let m := scanMant isHexDigitGo true cs
  if !m.ok then none
  else
    match m.rest with
    | p :: r =>
      if p = 'p' ∨ p = 'P' then
        let ex := scanExp r
        if ex.ok && ex.rest.isEmpty then
          mkFloat neg (hexDigitsToNat (m.digits ++ m.frac)) 2
            (ex.val - 4 * (m.frac.length : Int))
        else none
      else none
    | [] => none

/-- Model of Go `strconv.ParseFloat(s, 64)`: `some` exactly when Go
returns a nil error, carrying the exact value of the literal. -/
def goParseFloat (s : String) : Option GoFloat :=
  match parseSpecial s.data with
  | some f => some f
  | none =>
    let sr := splitSign s.data
    match sr.2 with
    | '0' :: x :: r =>
      if x = 'x' ∨ x = 'X' then parseHexFloat sr.1 r else parseDecFloat sr.1 sr.2
    | _ => parseDecFloat sr.1 sr.2

/-! ## Row codec (`parseRow` and its helpers) -/

/-- Field values of a decoded row: the `interface{}` cells the Go code
hands to the driver.  `vNull` is Go `nil`. -/
inductive Value where
  | vNull
  | vStr (s : String)
  | vInt (n : Int)
  | vFloat (f : GoFloat)
  | vBool (b : Bool)
deriving DecidableEq, Repr

/-- Nullable-integer helper of `parseRow`: empty string or any
`strconv.Atoi` failure becomes `nil`, a successful parse is kept. -/
def parseInt (s : String) : Value :=
  if s = "" then .vNull
  else
    match goAtoi s with
    | none => .vNull
    | some v => .vInt v

/-- Nullable-float helper of `parseRow`: empty string or any
`strconv.ParseFloat` failure becomes `nil`, a successful parse is
kept. -/
def parseFloat (s : String) : Value :=
  if s = "" then .vNull
  else
    match goParseFloat s with
    | none => .vNull
    | some f => .vFloat f

/-- Boolean test of the `parseBool` helper: trim white space, lower
case, compare with the three accepted spellings. -/
def goBoolOf (s : String) : Bool :=
  let t := goToLower (goTrimSpace s)
  t = "true" || t = "t" || t = "1"

/-- Boolean helper of `parseRow`: always a boolean, never `nil`. -/
def parseBool (s : String) : Value :=
  .vBool (goBoolOf s)

/-- Nullable-string helper of `parseRow`: empty string becomes `nil`,
anything else passes through verbatim. -/
def parseString (s : String) : Value :=
  if s = "" then .vNull else .vStr s

/-- Errors surfaced by the importer: the `parseRow` field-count error
and the (wrapped) batch-write failure, tagged with the index of the
failing `executeBatch` call. -/
inductive ImportError where
  | malformedRecord (got : Nat)
  | writeFailure (callIdx : Nat)
deriving DecidableEq, Repr

/-- Constructor-level view of `Except`, for deciding equality. -/
def exceptToSum {ε α : Type} : Except ε α → ε ⊕ α
  | .error e => .inl e
  | .ok a => .inr a

instance {ε α : Type} [DecidableEq ε] [DecidableEq α] : DecidableEq (Except ε α) := fun x y =>
  decidable_of_iff (exceptToSum x = exceptToSum y) (by cases x <;> cases y <;> simp [exceptToSum])

/-- The 28 typed cells `parseRow` builds, in source order.  The Go code
indexes `record[0]` … `record[27]` under the guard `len(record) == 28`;
`List.getD` with a default never reached under that guard stands in for
the panicking index. -/
def decodedFields (record : List String) : List Value :=
  [parseString (record.getD 0 ""),   -- call_number
   parseString (record.getD 1 ""),   -- unit_id
   parseInt (record.getD 2 ""),      -- incident_number
   parseString (record.getD 3 ""),   -- call_type
   parseString (record.getD 4 ""),   -- call_date
   parseString (record.getD 5 ""),   -- watch_date
   parseString (record.getD 6 ""),   -- call_final_disposition
   parseString (record.getD 7 ""),   -- available_dt_tm
   parseString (record.getD 8 ""),   -- address
   parseString (record.getD 9 ""),   -- city
   parseString (record.getD 10 ""),  -- zipcode
   parseString (record.getD 11 ""),  -- battalion
   parseString (record.getD 12 ""),  -- station_area
   parseString (record.getD 13 ""),  -- box
   parseInt (record.getD 14 ""),     -- original_priority
   parseInt (record.getD 15 ""),     -- priority
   parseInt (record.getD 16 ""),     -- final_priority
   parseBool (record.getD 17 ""),    -- als_unit
   parseString (record.getD 18 ""),  -- call_type_group
   parseInt (record.getD 19 ""),     -- num_alarms
   parseString (record.getD 20 ""),  -- unit_type
   parseInt (record.getD 21 ""),     -- unit_sequence_in_call_dispatch
   parseString (record.getD 22 ""),  -- fire_prevention_district
   parseString (record.getD 23 ""),  -- supervisor_district
   parseString (record.getD 24 ""),  -- neighborhood
   parseString (record.getD 25 ""),  -- location
   parseString (record.getD 26 ""),  -- row_id
   parseFloat (record.getD 27 "")]   -- delay

/-- Model of `CSVImporter.parseRow`: reject any record whose field count
is not 28 with the `expected 28 fields, got %d` error, otherwise build
the 28 typed cells. -/
def parseRow (record : List String) : Except ImportError (List Value) :=
  if record.length ≠ 28 then .error (.malformedRecord record.length)
  else .ok (decodedFields record)

/-! ## Batch writer (`executeBatch`)

The statement builder is modelled exactly; the store's `pool.Exec` is an
oracle argument returning `none` for success or `some msg` for the
driver error.  `executeBatch` returns the (possibly wrapped) error
together with the list of `Exec` calls it performed. -/

/-- The fixed head of the bulk-insert statement, transcribed from the Go
raw string literal (tab-indented). -/
def queryHead : String :=
  "INSERT INTO fire_calls (\n\t\tcall_number, unit_id, incident_number, call_type, call_date, watch_date,\n\t\tcall_final_disposition, available_dt_tm, address, city, zipcode, battalion,\n\t\tstation_area, box, original_priority, priority, final_priority, als_unit,\n\t\tcall_type_group, num_alarms, unit_type, unit_sequence_in_call_dispatch,\n\t\tfire_prevention_district, supervisor_district, neighborhood, location, row_id, delay\n\t) VALUES "

/-- Placeholder group the inner loop builds for row `i`: starting from
`"("`, append a comma before every parameter except the first, then
`$`(i*28+j+1), closing with `")"`. -/
def rowPlaceholder (i : Nat) : String :=
  ((List.range 28).foldl
    (fun acc j => (if 0 < j then acc ++ "," else acc) ++ "$" ++ toString (i * 28 + j + 1))
    "(") ++ ")"

/-- Model of Go `strings.Join`. -/
def goStringsJoin (elems : List String) (sep : String) : String :=
  match elems with
  | [] => ""
  | x :: xs => xs.foldl (fun acc v => acc ++ sep ++ v) x

/-- Flat parameter list the loop accumulates: for each row in order,
append `row[0]` … `row[27]`.  (`parseRow` always yields 28 cells, so the
`getD` default is never reached for the importer's batches.) -/
def batchValues (batch : List (List Value)) : List Value :=
  batch.foldl (fun acc row => acc ++ (List.range 28).map (fun j => row.getD j .vNull)) []

/-- The complete statement text: head plus the comma-joined placeholder
groups of rows `0 … len(batch)-1`. -/
def buildBatchQuery (batch : List (List Value)) : String :=
  queryHead ++ goStringsJoin ((List.range batch.length).map rowPlaceholder) ","

/-- Model of `CSVImporter.executeBatch`: an empty batch returns success
immediately with no store call; otherwise one `Exec` call is made with
the built statement and flat values, and a store error is wrapped as
`batch insert failed: …`. -/
def executeBatch (exec : String → List Value → Option String) (batch : List (List Value)) :
    Option String × List (String × List Value) :=
  if batch.isEmpty then (none, [])
  else
    let q := buildBatchQuery batch
    let vs := batchValues batch
    match exec q vs with
    | some e => (some ("batch insert failed: " ++ e), [(q, vs)])
    | none => (none, [(q, vs)])

/-! ## Sequential importer (`ImportFromFile`)

The CSV file is its list of records after the header line (the source
reads and discards the header first; opening or header failures return
`(0, err)` before the loop and are outside the loop model).  The store
is a write oracle `db : Nat → Bool` giving the outcome of the `k`-th
`executeBatch` call; the outcome records the successfully written
batches in write order, the returned row count, and the returned
error. -/

/-- Result of a sequential import run: the batches written successfully
in write order, the returned `totalRecords`, and the returned error. -/
structure SeqOutcome where
  writes : List (List (List Value))
  total : Nat
  err : Option ImportError
deriving DecidableEq, Repr

/-- The record-reading loop of `ImportFromFile`: decode each record
(skipping malformed ones), append to the current batch, flush when the
batch reaches `batchSize` (stopping with the wrapped error if the write
fails, without counting that batch), and flush the non-empty remainder
after the last record. -/
def seqLoop (bs : Nat) (db : Nat → Bool) :
    List (List String) → List (List Value) → Nat → Nat → SeqOutcome
  | [], batch, total, k =>
    if batch.isEmpty then { writes := [], total := total, err := none }
    else if db k then { writes := [batch], total := total + batch.length, err := none }
    else { writes := [], total := total, err := some (.writeFailure k) }
  | r :: rest, batch, total, k =>
    match parseRow r with
    | .error _ => seqLoop bs db rest batch total k
    | .ok row =>
      let batch' := batch ++ [row]
      if bs ≤ batch'.length then
        if db k then
          let out := seqLoop bs db rest [] (total + batch'.length) (k + 1)
          { writes := batch' :: out.writes, total := out.total, err := out.err }
        else { writes := [], total := total, err := some (.writeFailure k) }
      else seqLoop bs db rest batch' total k

/-- Model of `CSVImporter.ImportFromFile` after the header: run the loop
with an empty batch, a zero row count, and write-call index 0. -/
def importFromFile (bs : Nat) (db : Nat → Bool) (records : List (List String)) : SeqOutcome :=
  seqLoop bs db records [] 0 0

/-! ## Batch-size chunking helper -/

/-- Accumulator form of greedy chunking: exactly the batching discipline
of both importers' loops (append, flush at `bs`, flush a non-empty
remainder at end of input). -/
def chunksAcc {α : Type} (bs : Nat) : List α → List α → List (List α)
  | [], cur => if cur.isEmpty then [] else [cur]
  | a :: t, cur =>
    if bs ≤ cur.length + 1 then (cur ++ [a]) :: chunksAcc bs t []
    else chunksAcc bs t (cur ++ [a])

/-- Greedy chunks of size `bs` (last chunk possibly smaller). -/
def chunkList {α : Type} (bs : Nat) (l : List α) : List (List α) :=
  chunksAcc bs l []

/-! ## Concurrent importer (`ImportFromFileGoRoutine`)

The pipeline's nondeterminism is modelled by the record-to-parser
assignment: the reader pushes records onto one channel in file order
and each record is consumed by exactly one of the `N` parser workers,
so a schedule induces, for each worker, the subsequence of records it
receives.  Each worker batches its validly decoded rows exactly like
the sequential loop (flushing its non-empty remainder on channel
close), and — with no write failures — the two insert workers drain
every batch exactly once, adding each batch's length to the shared
mutex-protected counter.  The returned total is therefore the sum of
all batch lengths over all parser workers. -/

/-- Rows that decode successfully, in input order (malformed records
are silently skipped by the parser workers). -/
def validRows (records : List (List String)) : List (List Value) :=
  records.filterMap (fun r => (parseRow r).toOption)

/-- The subsequence of records consumed by parser worker `w` under the
schedule `assign` (record index ↦ consuming worker). -/
def workerRecords (N : Nat) (assign : Nat → Fin N) (records : List (List String)) (w : Fin N) :
    List (List String) :=
  (records.enum.filter (fun p => assign p.1 = w)).map Prod.snd

/-- The batches worker `w` pushes onto the batch channel: greedy
`batchSize` chunks of its validly decoded rows, with the non-empty
remainder flushed at channel close. -/
def workerBatches (bs N : Nat) (assign : Nat → Fin N) (records : List (List String))
    (w : Fin N) : List (List (List Value)) :=
  chunkList bs (validRows (workerRecords N assign records w))

/-- Row total returned by `ImportFromFileGoRoutine` on a failure-free
run under schedule `assign`: every batch of every worker is written
exactly once and its length added to the shared counter. -/
def goroutineTotal (bs N : Nat) (assign : Nat → Fin N) (records : List (List String)) : Nat :=
  Finset.univ.sum (fun w : Fin N => ((workerBatches bs N assign records w).map List.length).sum)

/-! ## Profiler (`profiler/profiler.go`)

Wall-clock instants are explicit `now` arguments (nanoseconds, as Go
`time.Time`/`time.Duration` counts); the two string-keyed Go maps are
optional-valued functions. -/

/-- State of a `Profiler`: completed durations and in-flight start
instants, both keyed by operation name. -/
structure Profiler where
  operations : String → Option Int
  startTimes : String → Option Int

/-- A timed operation handle: `Profiler.Start` returns it; it carries
the operation name (the Go struct's profiler pointer is the explicit
state argument of `Operation.End`). -/
structure Operation where
  name : String

/-- Model of `profiler.New`: both maps empty. -/
def Profiler.New : Profiler :=
  { operations := fun _ => none, startTimes := fun _ => none }

/-- Model of `Profiler.Start`: record the current instant under the
operation name (overwriting any in-flight start) and hand out the
operation handle. -/
def Profiler.Start (p : Profiler) (operationName : String) (now : Int) : Profiler × Operation :=
  ({ p with startTimes := fun n => if n = operationName then some now else p.startTimes n },
   { name := operationName })

/-- Model of `Operation.End`: with no matching start, return zero and
leave the state untouched; otherwise store the elapsed duration under
the name, clear the in-flight start, and return the duration. -/
def Operation.End (op : Operation) (p : Profiler) (now : Int) : Int × Profiler :=
  match p.startTimes op.name with
  | none => (0, p)
  | some st =>
    let d := now - st
    (d,
     { operations := fun n => if n = op.name then some d else p.operations n,
       startTimes := fun n => if n = op.name then none else p.startTimes n })

set_option maxRecDepth 8000

example : goAtoi "42" = some 42 := by decide
example : goAtoi "-9223372036854775808" = some (-9223372036854775808) := by decide
example : goAtoi "9223372036854775808" = none := by decide
example : goAtoi "1x" = none := by decide
example : goAtoi "" = none := by decide
example : goParseFloat "1.5" = some (.finite (mkRat 3 2)) := by decide
example : goParseFloat "" = none := by decide
example : goParseFloat "1_0.5e1" = some (.finite (mkRat 105 1)) := by decide
example : goParseFloat "1__0" = none := by decide
example : goParseFloat "nan" = some .nan := by decide
example : goParseFloat "-inf" = some (.inf true) := by decide
example : goParseFloat "0x10p-1" = some (.finite (mkRat 8 1)) := by decide
example : goParseFloat "0x10" = none := by decide
example : goBoolOf " TRUE " = true := by decide
example : goBoolOf "0" = false := by decide
example : goBoolOf "" = false := by decide

/-! ## Executable consistency checks on concrete inputs -/

example : rowPlaceholder 0 = "($1,$2,$3,$4,$5,$6,$7,$8,$9,$10,$11,$12,$13,$14,$15,$16,$17,$18,$19,$20,$21,$22,$23,$24,$25,$26,$27,$28)" := by decide
example : rowPlaceholder 1 = "($29,$30,$31,$32,$33,$34,$35,$36,$37,$38,$39,$40,$41,$42,$43,$44,$45,$46,$47,$48,$49,$50,$51,$52,$53,$54,$55,$56)" := by decide
example : executeBatch (fun _ _ => none) [] = (none, []) := by decide
example :
    (importFromFile 2 (fun _ => true)
      [List.replicate 28 "", List.replicate 28 "", List.replicate 28 ""]).total = 3 := by decide
example :
    (importFromFile 2 (fun _ => true)
      [List.replicate 28 "", List.replicate 28 "", List.replicate 28 ""]).writes.map
        List.length = [2, 1] := by decide
example :
    (importFromFile 2 (fun _ => false) [List.replicate 28 "", List.replicate 28 ""]).err =
      some (.writeFailure 0) := by decide
example :
    (importFromFile 1 (fun _ => true) [List.replicate 27 ""]).total = 0 := by decide
example : chunkList 2 [1, 2, 3, 4, 5] = [[1, 2], [3, 4], [5]] := by decide
example :
    goroutineTotal 2 2 (fun i => ⟨i % 2, Nat.mod_lt _ (by decide)⟩)
      [List.replicate 28 "", List.replicate 28 "", List.replicate 28 ""] = 3 := by decide

/-! ## Helper lemmas about the row codec -/

/-- A record with exactly 28 fields decodes successfully. -/
theorem parseRow_eq_ok (record : List String) (h : record.length = 28) :
    parseRow record = .ok (decodedFields record) := by
  simp [parseRow, h]

/-- A record with a field count other than 28 is rejected with the
field-count error. -/
theorem parseRow_eq_error (record : List String) (h : record.length ≠ 28) :
    parseRow record = .error (.malformedRecord record.length) := by
  simp [parseRow, h]

/-- The decoded row always has exactly 28 cells. -/
theorem decodedFields_length (record : List String) : (decodedFields record).length = 28 :=
  rfl

/-- An empty integer field is null. -/
theorem parseInt_empty : parseInt "" = .vNull := by
  simp [parseInt]

/-- A field `strconv.Atoi` rejects is null. -/
theorem parseInt_none (s : String) (h : goAtoi s = none) : parseInt s = .vNull := by
  by_cases h0 : s = "" <;> simp [parseInt, h0, h]

/-- A field `strconv.Atoi` accepts keeps its integer value. -/
theorem parseInt_some (s : String) (v : Int) (hne : s ≠ "") (hv : goAtoi s = some v) :
    parseInt s = .vInt v := by
  simp [parseInt, hne, hv]

/-- An empty float field is null. -/
theorem parseFloat_empty : parseFloat "" = .vNull := by
  simp [parseFloat]

/-- A field `strconv.ParseFloat` rejects is null. -/
theorem parseFloat_none (s : String) (h : goParseFloat s = none) : parseFloat s = .vNull := by
  by_cases h0 : s = "" <;> simp [parseFloat, h0, h]

/-- A field `strconv.ParseFloat` accepts keeps its value. -/
theorem parseFloat_some (s : String) (f : GoFloat) (hne : s ≠ "")
    (hf : goParseFloat s = some f) : parseFloat s = .vFloat f := by
  simp [parseFloat, hne, hf]

/-! ## C2 — field-count validation of the row codec -/

/-- C2: `parseRow` returns a `MalformedRecord` error and no row exactly
when the record's field count is not 28 (the error names the offending
count); every 28-field record decodes to exactly 28 values with no
error. -/
theorem c2_parseRow_field_count (record : List String) :
    ((∃ e, parseRow record = .error e) ↔ record.length ≠ 28) ∧
    (record.length ≠ 28 → parseRow record = .error (.malformedRecord record.length)) ∧
    (record.length = 28 →
      parseRow record = .ok (decodedFields record) ∧ (decodedFields record).length = 28) := by
  refine ⟨⟨fun ⟨e, he⟩ h28 => ?_, fun h => ⟨_, parseRow_eq_error record h⟩⟩,
    fun h => parseRow_eq_error record h,
    fun h => ⟨parseRow_eq_ok record h, decodedFields_length record⟩⟩
  rw [parseRow_eq_ok record h28] at he
  exact Except.noConfusion he

/-- Witness for C2: a one-field record is rejected, a 28-field record
decodes to 28 values. -/
theorem c2_witness :
    (∃ e, parseRow ["x"] = .error e) ∧
    parseRow (List.replicate 28 "") = .ok (decodedFields (List.replicate 28 "")) ∧
    (decodedFields (List.replicate 28 "")).length = 28 :=
  ⟨(c2_parseRow_field_count ["x"]).1.mpr (by decide),
   ((c2_parseRow_field_count (List.replicate 28 "")).2.2 (by decide)).1,
   ((c2_parseRow_field_count (List.replicate 28 "")).2.2 (by decide)).2⟩

/-! ## C3 — the boolean field (`als_unit`, position 17) -/

/-- C3: in every decoded 28-field record, cell 17 is a boolean (never
null), true exactly when the trimmed, lower-cased field reads `true`,
`t` or `1`. -/
theorem c3_bool_field (record : List String) (h : record.length = 28) :
    (decodedFields record).getD 17 .vNull = .vBool (goBoolOf (record.getD 17 "")) ∧
    (decodedFields record).getD 17 .vNull ≠ .vNull ∧
    (goBoolOf (record.getD 17 "") = true ↔
      (goToLower (goTrimSpace (record.getD 17 "")) = "true" ∨
       goToLower (goTrimSpace (record.getD 17 "")) = "t" ∨
       goToLower (goTrimSpace (record.getD 17 "")) = "1")) := by
  refine ⟨rfl, by simp [decodedFields, parseBool], ?_⟩
  simp [goBoolOf, or_assoc]

/-- Witness for C3: a record whose 18th field is `TRUE` decodes it to
boolean true. -/
theorem c3_witness :
    (List.replicate 28 "TRUE").length = 28 ∧
    (decodedFields (List.replicate 28 "TRUE")).getD 17 .vNull =
      .vBool (goBoolOf ((List.replicate 28 "TRUE").getD 17 "")) ∧
    goBoolOf "TRUE" = true :=
  ⟨by decide, (c3_bool_field (List.replicate 28 "TRUE") (by decide)).1, by decide⟩

/-! ## C4 — nullable numeric fields -/

/-- C4: every integer-typed cell (positions 2, 14, 15, 16, 19, 21) is
null on an empty field, null when `strconv.Atoi` fails, and the parsed
integer otherwise; the float cell (position 27) follows the same policy
with `strconv.ParseFloat`; coercion failures never make `parseRow`
error. -/
theorem c4_numeric_fields (record : List String) (h : record.length = 28) :
    (∀ i ∈ ([2, 14, 15, 16, 19, 21] : List Nat),
      (decodedFields record).getD i .vNull = parseInt (record.getD i "") ∧
      (record.getD i "" = "" → parseInt (record.getD i "") = .vNull) ∧
      (goAtoi (record.getD i "") = none → parseInt (record.getD i "") = .vNull) ∧
      (∀ v, record.getD i "" ≠ "" → goAtoi (record.getD i "") = some v →
        parseInt (record.getD i "") = .vInt v)) ∧
    ((decodedFields record).getD 27 .vNull = parseFloat (record.getD 27 "") ∧
      (record.getD 27 "" = "" → parseFloat (record.getD 27 "") = .vNull) ∧
      (goParseFloat (record.getD 27 "") = none → parseFloat (record.getD 27 "") = .vNull) ∧
      (∀ f, record.getD 27 "" ≠ "" → goParseFloat (record.getD 27 "") = some f →
        parseFloat (record.getD 27 "") = .vFloat f)) ∧
    parseRow record = .ok (decodedFields record) := by
  refine ⟨?_, ⟨rfl, ?_, ?_, ?_⟩, parseRow_eq_ok record h⟩
  · intro i hi
    fin_cases hi <;>
      exact ⟨rfl,
        fun he => by rw [he]; exact parseInt_empty,
        fun he => parseInt_none _ he,
        fun v hne hv => parseInt_some _ v hne hv⟩
  · intro he
    rw [he]
    exact parseFloat_empty
  · intro he
    exact parseFloat_none _ he
  · intro f hne hf
    exact parseFloat_some _ f hne hf

/-- Witness for C4: integer field `7` parses, an empty integer field is
null. -/
theorem c4_witness :
    (List.replicate 28 "7").length = 28 ∧
    (decodedFields (List.replicate 28 "7")).getD 2 .vNull =
      parseInt ((List.replicate 28 "7").getD 2 "") ∧
    parseInt ((List.replicate 28 "7").getD 2 "") = .vInt 7 ∧
    parseInt ((List.replicate 28 "").getD 14 "") = .vNull :=
  ⟨by decide,
   ((c4_numeric_fields (List.replicate 28 "7") (by decide)).1 2 (by decide)).1,
   ((c4_numeric_fields (List.replicate 28 "7") (by decide)).1 2 (by decide)).2.2.2 7
     (by decide) (by decide),
   (((c4_numeric_fields (List.replicate 28 "") (by decide)).1 14 (by decide)).2.1 (by decide))⟩

/-! ## C9 — determinism of the row codec -/

/-- C9: `parseRow` is a pure function of its record: two decodes of the
same record give the same result — the same error, or cell-for-cell the
same 28 values. -/
theorem c9_parseRow_deterministic (record : List String) :
    parseRow record = parseRow record ∧
    (∀ row row', parseRow record = .ok row → parseRow record = .ok row' →
      row.length = 28 ∧ ∀ i, row.getD i .vNull = row'.getD i .vNull) ∧
    (∀ e e', parseRow record = .error e → parseRow record = .error e' → e = e') := by
  refine ⟨rfl, fun row row' hrow hrow' => ?_, fun e e' he he' => ?_⟩
  · rw [hrow] at hrow'
    cases hrow'
    constructor
    · by_cases h : record.length = 28
      · rw [parseRow_eq_ok record h] at hrow
        cases hrow
        exact decodedFields_length record
      · rw [parseRow_eq_error record h] at hrow
        exact Except.noConfusion hrow
    · intro i
      rfl
  · rw [he] at he'
    cases he'
    rfl

/-- Witness for C9: decoding a concrete 28-field record twice gives
cell-wise equal rows. -/
theorem c9_witness :
    (decodedFields (List.replicate 28 "z")).length = 28 ∧
    (decodedFields (List.replicate 28 "z")).getD 0 .vNull =
      (decodedFields (List.replicate 28 "z")).getD 0 .vNull :=
  ⟨((c9_parseRow_deterministic (List.replicate 28 "z")).2.1
      (decodedFields (List.replicate 28 "z")) (decodedFields (List.replicate 28 "z"))
      (by decide) (by decide)).1,
   ((c9_parseRow_deterministic (List.replicate 28 "z")).2.1
      (decodedFields (List.replicate 28 "z")) (decodedFields (List.replicate 28 "z"))
      (by decide) (by decide)).2 0⟩

/-! ## C10 — empty batches are never written -/

/-- C10: `executeBatch` on an empty batch returns success immediately:
no statement is built and the store's `Exec` is never invoked,
whatever the store would answer. -/
theorem c10_executeBatch_empty (exec : String → List Value → Option String) :
    executeBatch exec [] = (none, []) :=
  rfl

/-! ## C8 — profiler end semantics -/

/-- C8: `Operation.End` with no in-flight start returns a zero duration
and leaves the whole profiler (in particular the recorded-durations
map) unchanged; with a matching start it returns the elapsed time,
stores it under the name, and clears the in-flight marker. -/
theorem c8_operation_end (p : Profiler) (name : String) (now : Int) :
    (p.startTimes name = none → Operation.End { name := name } p now = (0, p)) ∧
    (∀ st, p.startTimes name = some st →
      (Operation.End { name := name } p now).1 = now - st ∧
      ((Operation.End { name := name } p now).2.operations name = some (now - st) ∧
        (∀ n, n ≠ name →
          (Operation.End { name := name } p now).2.operations n = p.operations n)) ∧
      (Operation.End { name := name } p now).2.startTimes name = none ∧
      (Operation.End { name := name } p now).2.operations name =
        some (Operation.End { name := name } p now).1) := by
  constructor
  · intro hnone
    simp [Operation.End, hnone]
  · intro st hst
    refine ⟨by simp [Operation.End, hst], ⟨by simp [Operation.End, hst], ?_⟩,
      by simp [Operation.End, hst], by simp [Operation.End, hst]⟩
    intro n hn
    simp [Operation.End, hst, hn]

/-- Witness for C8: on a fresh profiler `End` is a no-op returning 0;
after `Start "a"` at instant 2, `End` at instant 7 returns 5, records
it, and clears the start marker. -/
theorem c8_witness :
    (Operation.End { name := "a" } Profiler.New 7 = (0, Profiler.New)) ∧
    ((Operation.End { name := "a" } (Profiler.Start Profiler.New "a" 2).1 7).1 = 7 - 2 ∧
      (Operation.End { name := "a" } (Profiler.Start Profiler.New "a" 2).1 7).2.startTimes "a" =
        none ∧
      (Operation.End { name := "a" } (Profiler.Start Profiler.New "a" 2).1 7).2.operations "a" =
        some (7 - 2)) :=
  ⟨(c8_operation_end Profiler.New "a" 7).1 rfl,
   ((c8_operation_end (Profiler.Start Profiler.New "a" 2).1 "a" 7).2 2 rfl).1,
   ((c8_operation_end (Profiler.Start Profiler.New "a" 2).1 "a" 7).2 2 rfl).2.2.1,
   ((c8_operation_end (Profiler.Start Profiler.New "a" 2).1 "a" 7).2 2 rfl).2.1.1⟩

/-! ## Helper lemmas about greedy chunking -/

/-- Flattening the greedy chunks restores the pending batch followed by
the remaining input. -/
theorem chunksAcc_flatten {α : Type} (bs : Nat) (l : List α) :
    ∀ cur : List α, (chunksAcc bs l cur).flatten = cur ++ l := by
  induction l with
  | nil =>
    intro cur
    by_cases h : cur.isEmpty
    · simp [chunksAcc, h, List.isEmpty_iff.mp h]
    · simp [chunksAcc, h]
  | cons a t ih =>
    intro cur
    by_cases h : bs ≤ cur.length + 1
    · simp [chunksAcc, h, ih]
    · simp [chunksAcc, h, ih]

/-- Concatenation of all greedy chunks is the chunked list. -/
theorem chunkList_flatten {α : Type} (bs : Nat) (l : List α) :
    (chunkList bs l).flatten = l := by
  simpa using chunksAcc_flatten bs l []

/-- Chunk `i` of the greedy chunking has exactly
`min bs (pending + input length - i * bs)` elements. -/
theorem chunksAcc_getD_length {α : Type} (bs : Nat) (l : List α) :
    ∀ (cur : List α), cur.length < bs → ∀ i, i < (chunksAcc bs l cur).length →
      ((chunksAcc bs l cur).getD i []).length = min bs (cur.length + l.length - i * bs) := by
  induction l with
  | nil =>
    intro cur hcur i hi
    by_cases h : cur.isEmpty
    · simp [chunksAcc, h] at hi
    · simp only [chunksAcc, if_neg h, List.length_cons, List.length_nil] at hi
      rw [Nat.lt_one_iff] at hi
      subst hi
      simp only [chunksAcc, if_neg h, List.getD_cons_zero, List.length_nil]
      omega
  | cons a t ih =>
    intro cur hcur i hi
    by_cases h : bs ≤ cur.length + 1
    · cases i with
      | zero =>
        simp only [chunksAcc, if_pos h, List.getD_cons_zero, List.length_append,
          List.length_singleton, List.length_cons, List.length_nil, Nat.zero_mul]
        omega
      | succ i' =>
        have hi' : i' < (chunksAcc bs t []).length := by
          simp only [chunksAcc, if_pos h, List.length_cons] at hi
          omega
        have hrec := ih [] (by simp only [List.length_nil]; omega) i' hi'
        simp only [chunksAcc, if_pos h, List.getD_cons_succ]
        rw [hrec, Nat.succ_mul]
        simp only [List.length_nil, List.length_cons]
        omega
    · have hlt : (cur ++ [a]).length < bs := by
        simp only [List.length_append, List.length_singleton]
        omega
      have hi2 : i < (chunksAcc bs t (cur ++ [a])).length := by
        simpa only [chunksAcc, if_neg h] using hi
      have hrec := ih (cur ++ [a]) hlt i hi2
      simp only [List.length_append, List.length_singleton, List.length_nil] at hrec
      simp only [chunksAcc, if_neg h]
      rw [hrec]
      simp only [List.length_append, List.length_singleton, List.length_cons, List.length_nil]
      omega

/-- Number of greedy chunks: the ceiling of (pending + input) over the
batch size. -/
theorem chunksAcc_length {α : Type} (bs : Nat) (l : List α) :
    ∀ (cur : List α), cur.length < bs →
      (chunksAcc bs l cur).length = (cur.length + l.length + bs - 1) / bs := by
  induction l with
  | nil =>
    intro cur hcur
    by_cases h : cur.isEmpty
    · have h0 : cur.length = 0 := by
        simpa using congrArg List.length (List.isEmpty_iff.mp h)
      simp only [chunksAcc, if_pos h, List.length_nil, h0]
      rw [Nat.div_eq_of_lt (by omega)]
    · have h1 : cur ≠ [] := by
        simpa [List.isEmpty_iff] using h
      have h2 : 0 < cur.length := List.length_pos.mpr h1
      simp only [chunksAcc, if_neg h, List.length_cons, List.length_nil]
      have he : cur.length + 0 + bs - 1 = (cur.length - 1) + bs := by omega
      rw [he, Nat.add_div_right _ (by omega), Nat.div_eq_of_lt (by omega)]
  | cons a t ih =>
    intro cur hcur
    by_cases h : bs ≤ cur.length + 1
    · simp only [chunksAcc, if_pos h, List.length_cons]
      rw [ih [] (by simp only [List.length_nil]; omega)]
      have he : cur.length + (t.length + 1) + bs - 1 =
          (([] : List α).length + t.length + bs - 1) + bs := by
        simp only [List.length_nil]
        omega
      rw [he, Nat.add_div_right _ (by omega)]
    · have hlt : (cur ++ [a]).length < bs := by
        simp only [List.length_append, List.length_singleton]
        omega
      simp only [chunksAcc, if_neg h]
      rw [ih (cur ++ [a]) hlt]
      have hnum : (cur ++ [a]).length + t.length + bs - 1 =
          cur.length + (a :: t).length + bs - 1 := by
        simp only [List.length_append, List.length_singleton, List.length_cons,
          List.length_nil]
        omega
      rw [hnum]

/-! ## C1 — sequential import: batching, order, and count -/

/-- On all-valid input with an always-successful store, the sequential
loop writes exactly the greedy chunks of the decoded rows (pending batch
first) and counts every record. -/
theorem seqLoop_success (bs : Nat) (db : Nat → Bool) (hdb : ∀ k, db k = true) :
    ∀ (records : List (List String)), (∀ r ∈ records, r.length = 28) →
      ∀ (batch : List (List Value)) (total k : Nat), batch.length < bs →
        seqLoop bs db records batch total k =
          { writes := chunksAcc bs (records.map decodedFields) batch,
            total := total + batch.length + records.length,
            err := none } := by
  intro records
  induction records with
  | nil =>
    intro _ batch total k hb
    by_cases h : batch.isEmpty
    · have h0 : batch.length = 0 := by
        simpa using congrArg List.length (List.isEmpty_iff.mp h)
      simp [seqLoop, chunksAcc, h, h0]
    · simp [seqLoop, chunksAcc, h, hdb k]
  | cons r rest ih =>
    intro hval batch total k hb
    have hr : parseRow r = .ok (decodedFields r) := parseRow_eq_ok r (hval r (by simp))
    have hrest : ∀ x ∈ rest, x.length = 28 := fun x hx => hval x (by simp [hx])
    by_cases h : bs ≤ batch.length + 1
    · simp only [seqLoop, hr, List.length_append, List.length_singleton, if_pos h, hdb k,
        if_true]
      rw [ih hrest [] (total + (batch.length + 1)) (k + 1)
        (by simp only [List.length_nil]; omega)]
      simp only [List.map_cons, chunksAcc, if_pos h, SeqOutcome.mk.injEq, List.length_nil,
        List.length_cons]
      refine ⟨trivial, by omega, trivial⟩
    · simp only [seqLoop, hr, List.length_append, List.length_singleton, if_neg h]
      rw [ih hrest (batch ++ [decodedFields r]) total k
        (by simp only [List.length_append, List.length_singleton]; omega)]
      simp only [List.map_cons, chunksAcc, if_neg h, SeqOutcome.mk.injEq, List.length_append,
        List.length_singleton, List.length_cons, List.length_nil]
      refine ⟨trivial, by omega, trivial⟩

/-- C1: with a batch size of at least 1, an all-valid input, and a store
that accepts every batch, `ImportFromFile` returns no error and a count
equal to the number of records; the written batches concatenate, in
write order, to exactly the decoded records in input order, there are
⌈K / batchSize⌉ of them, and batch `i` holds exactly
`min batchSize (K - i * batchSize)` rows — full batches of `batchSize`
rows except possibly the final remainder. -/
theorem c1_sequential_import (bs : Nat) (db : Nat → Bool) (records : List (List String))
    (hbs : 1 ≤ bs) (hval : ∀ r ∈ records, r.length = 28) (hdb : ∀ k, db k = true) :
    (importFromFile bs db records).err = none ∧
    (importFromFile bs db records).total = records.length ∧
    (importFromFile bs db records).writes.flatten = records.map decodedFields ∧
    (importFromFile bs db records).writes.length = (records.length + bs - 1) / bs ∧
    (∀ i, i < (importFromFile bs db records).writes.length →
      ((importFromFile bs db records).writes.getD i []).length =
        min bs (records.length - i * bs)) := by
  have hrun := seqLoop_success bs db hdb records hval [] 0 0
    (by simp only [List.length_nil]; omega)
  rw [importFromFile, hrun]
  refine ⟨rfl, by simp, ?_, ?_, ?_⟩
  · simpa using chunksAcc_flatten bs (records.map decodedFields) []
  · have hc := chunksAcc_length bs (records.map decodedFields) []
      (by simp only [List.length_nil]; omega)
    simpa [List.length_map] using hc
  · intro i hi
    have hc := chunksAcc_getD_length bs (records.map decodedFields) []
      (by simp only [List.length_nil]; omega) i (by simpa using hi)
    simpa [List.length_map] using hc

/-- Witness for C1: three valid records, batch size 2: no error, count
3, order preserved, two batches of sizes 2 and 1. -/
theorem c1_witness :
    (importFromFile 2 (fun _ => true)
      [List.replicate 28 "", List.replicate 28 "x", List.replicate 28 "y"]).err = none ∧
    (importFromFile 2 (fun _ => true)
      [List.replicate 28 "", List.replicate 28 "x", List.replicate 28 "y"]).total =
      [List.replicate 28 "", List.replicate 28 "x", List.replicate 28 "y"].length ∧
    (importFromFile 2 (fun _ => true)
      [List.replicate 28 "", List.replicate 28 "x", List.replicate 28 "y"]).writes.flatten =
      [List.replicate 28 "", List.replicate 28 "x", List.replicate 28 "y"].map decodedFields ∧
    (importFromFile 2 (fun _ => true)
      [List.replicate 28 "", List.replicate 28 "x", List.replicate 28 "y"]).writes.length =
      ([List.replicate 28 "", List.replicate 28 "x", List.replicate 28 "y"].length + 2 - 1) /
        2 ∧
    ((importFromFile 2 (fun _ => true)
      [List.replicate 28 "", List.replicate 28 "x", List.replicate 28 "y"]).writes.getD 0
        []).length =
      min 2 ([List.replicate 28 "", List.replicate 28 "x", List.replicate 28 "y"].length -
        0 * 2) ∧
    ((importFromFile 2 (fun _ => true)
      [List.replicate 28 "", List.replicate 28 "x", List.replicate 28 "y"]).writes.getD 1
        []).length =
      min 2 ([List.replicate 28 "", List.replicate 28 "x", List.replicate 28 "y"].length -
        1 * 2) :=
  ⟨(c1_sequential_import 2 (fun _ => true)
      [List.replicate 28 "", List.replicate 28 "x", List.replicate 28 "y"]
      (by decide) (by decide) (fun _ => rfl)).1,
   (c1_sequential_import 2 (fun _ => true)
      [List.replicate 28 "", List.replicate 28 "x", List.replicate 28 "y"]
      (by decide) (by decide) (fun _ => rfl)).2.1,
   (c1_sequential_import 2 (fun _ => true)
      [List.replicate 28 "", List.replicate 28 "x", List.replicate 28 "y"]
      (by decide) (by decide) (fun _ => rfl)).2.2.1,
   (c1_sequential_import 2 (fun _ => true)
      [List.replicate 28 "", List.replicate 28 "x", List.replicate 28 "y"]
      (by decide) (by decide) (fun _ => rfl)).2.2.2.1,
   (c1_sequential_import 2 (fun _ => true)
      [List.replicate 28 "", List.replicate 28 "x", List.replicate 28 "y"]
      (by decide) (by decide) (fun _ => rfl)).2.2.2.2 0 (by decide),
   (c1_sequential_import 2 (fun _ => true)
      [List.replicate 28 "", List.replicate 28 "x", List.replicate 28 "y"]
      (by decide) (by decide) (fun _ => rfl)).2.2.2.2 1 (by decide)⟩

/-! ## C7 — sequential import under write failure -/

/-- A malformed head record contributes nothing to the valid rows. -/
theorem validRows_cons_error (r : List String) (rest : List (List String)) (e : ImportError)
    (h : parseRow r = .error e) : validRows (r :: rest) = validRows rest := by
  simp [validRows, Except.toOption, h]

/-- A valid head record contributes its decoded row first. -/
theorem validRows_cons_ok (r : List String) (rest : List (List String)) (row : List Value)
    (h : parseRow r = .ok row) : validRows (r :: rest) = row :: validRows rest := by
  simp [validRows, Except.toOption, h]

/-- When a run of the sequential loop ends in an error, the error is the
write failure of call `k + #successful-writes`, every earlier call
succeeded, the returned count is the input count plus the rows of the
successful writes only, and those writes are exactly the leading valid
rows in order (the failed batch is not counted). -/
theorem seqLoop_failure (bs : Nat) (db : Nat → Bool) :
    ∀ (records : List (List String)) (batch : List (List Value)) (total k : Nat),
      (seqLoop bs db records batch total k).err.isSome →
      (seqLoop bs db records batch total k).total =
        total + ((seqLoop bs db records batch total k).writes.map List.length).sum ∧
      (seqLoop bs db records batch total k).writes.flatten =
        (batch ++ validRows records).take
          (((seqLoop bs db records batch total k).writes.map List.length).sum) ∧
      (∀ j, k ≤ j → j < k + (seqLoop bs db records batch total k).writes.length →
        db j = true) ∧
      (seqLoop bs db records batch total k).err =
        some (.writeFailure (k + (seqLoop bs db records batch total k).writes.length)) ∧
      db (k + (seqLoop bs db records batch total k).writes.length) = false := by
  intro records
  induction records with
  | nil =>
    intro batch total k herr
    by_cases h : batch.isEmpty
    · simp [seqLoop, h] at herr
    · by_cases hk : db k
      · simp [seqLoop, h, hk] at herr
      · have hkf : db k = false := by simpa using hk
        simp only [seqLoop, if_neg h, hkf, Bool.false_eq_true, if_false]
        refine ⟨by simp, by simp, ?_, by simp, by simpa using hkf⟩
        intro j h1 h2
        simp only [List.length_nil] at h2
        omega
  | cons r rest ih =>
    intro batch total k herr
    cases hpr : parseRow r with
    | error e =>
      have hv : validRows (r :: rest) = validRows rest := validRows_cons_error r rest e hpr
      simp only [seqLoop, hpr] at herr ⊢
      rw [hv]
      exact ih batch total k herr
    | ok row =>
      have hv : validRows (r :: rest) = row :: validRows rest := validRows_cons_ok r rest row hpr
      by_cases h : bs ≤ (batch ++ [row]).length
      · by_cases hk : db k
        · have hkt : db k = true := by simpa using hk
          simp only [seqLoop, hpr, if_pos h, hkt, if_true] at herr ⊢
          have hrec := ih [] (total + (batch ++ [row]).length) (k + 1) herr
          obtain ⟨ht, hf, hr, he, hd⟩ := hrec
          refine ⟨?_, ?_, ?_, ?_, ?_⟩
          · simp only [List.map_cons, List.sum_cons]
            omega
          · simp only [List.flatten_cons, List.map_cons, List.sum_cons]
            rw [hv]
            rw [show batch ++ row :: validRows rest =
              (batch ++ [row]) ++ validRows rest by simp]
            rw [List.take_append]
            rw [hf]
            simp
          · intro j h1 h2
            simp only [List.length_cons] at h2
            rcases Nat.eq_or_lt_of_le h1 with rfl | hlt
            · exact hkt
            · exact hr j (by omega) (by omega)
          · rw [he]
            simp only [List.length_cons, Option.some.injEq, ImportError.writeFailure.injEq]
            omega
          · simp only [List.length_cons]
            have heq : k + ((seqLoop bs db rest []
                (total + (batch ++ [row]).length) (k + 1)).writes.length + 1) =
                k + 1 + (seqLoop bs db rest []
                (total + (batch ++ [row]).length) (k + 1)).writes.length := by omega
            rw [heq]
            exact hd
        · have hkf : db k = false := by simpa using hk
          simp only [seqLoop, hpr, if_pos h, hkf, Bool.false_eq_true, if_false]
          refine ⟨by simp, by simp, ?_, by simp, by simpa using hkf⟩
          intro j h1 h2
          simp only [List.length_nil] at h2
          omega
      · simp only [seqLoop, hpr, if_neg h] at herr ⊢
        have hrec := ih (batch ++ [row]) total k herr
        obtain ⟨ht, hf, hr, he, hd⟩ := hrec
        refine ⟨ht, ?_, hr, he, hd⟩
        rw [hf, hv]
        simp

/-- C7: whenever a sequential import run ends with an error, the error
is non-nil (the write failure of the first failing call), the returned
count is exactly the rows of the batches written successfully before
the failure (the failed batch is not counted), those batches hold the
leading validly-decoded rows in input order — malformed records are
skipped, never counted, and never stop the import by themselves — and
every write call before the failing one succeeded. -/
theorem c7_sequential_import_failure (bs : Nat) (db : Nat → Bool)
    (records : List (List String))
    (herr : (importFromFile bs db records).err.isSome) :
    (importFromFile bs db records).total =
      ((importFromFile bs db records).writes.map List.length).sum ∧
    (importFromFile bs db records).writes.flatten =
      (validRows records).take (importFromFile bs db records).total ∧
    (importFromFile bs db records).err =
      some (.writeFailure (importFromFile bs db records).writes.length) ∧
    (∀ j, j < (importFromFile bs db records).writes.length → db j = true) ∧
    db (importFromFile bs db records).writes.length = false := by
  simp only [importFromFile] at herr ⊢
  obtain ⟨ht, hf, hr, he, hd⟩ := seqLoop_failure bs db records [] 0 0 herr
  refine ⟨by simpa using ht, ?_, by simpa using he,
    fun j hj => hr j (by omega) (by omega), by simpa using hd⟩
  rw [show (seqLoop bs db records [] 0 0).total =
    ((seqLoop bs db records [] 0 0).writes.map List.length).sum from by simpa using ht]
  rw [hf]
  simp

/-- Witness for C7: one valid record then one malformed record, batch
size 1, a store that rejects every batch: error on call 0, zero rows
counted, nothing written. -/
theorem c7_witness :
    (importFromFile 1 (fun _ => false) [List.replicate 28 "", ["bad"]]).total =
      ((importFromFile 1 (fun _ => false)
        [List.replicate 28 "", ["bad"]]).writes.map List.length).sum ∧
    (importFromFile 1 (fun _ => false) [List.replicate 28 "", ["bad"]]).writes.flatten =
      (validRows [List.replicate 28 "", ["bad"]]).take
        (importFromFile 1 (fun _ => false) [List.replicate 28 "", ["bad"]]).total ∧
    (importFromFile 1 (fun _ => false) [List.replicate 28 "", ["bad"]]).err =
      some (.writeFailure
        (importFromFile 1 (fun _ => false) [List.replicate 28 "", ["bad"]]).writes.length) ∧
    (fun _ => false :
      Nat → Bool) (importFromFile 1 (fun _ => false)
        [List.replicate 28 "", ["bad"]]).writes.length = false :=
  ⟨(c7_sequential_import_failure 1 (fun _ => false) [List.replicate 28 "", ["bad"]]
      (by decide)).1,
   (c7_sequential_import_failure 1 (fun _ => false) [List.replicate 28 "", ["bad"]]
      (by decide)).2.1,
   (c7_sequential_import_failure 1 (fun _ => false) [List.replicate 28 "", ["bad"]]
      (by decide)).2.2.1,
   (c7_sequential_import_failure 1 (fun _ => false) [List.replicate 28 "", ["bad"]]
      (by decide)).2.2.2.2⟩

/-! ## C5 — batch statement construction and parameter binding -/

/-- Reading a list back by positions reproduces it. -/
theorem range_map_getD {α : Type} (d : α) :
    ∀ row : List α, (List.range row.length).map (fun j => row.getD j d) = row := by
  intro row
  induction row with
  | nil => simp
  | cons a t ih =>
    rw [List.length_cons, List.range_succ_eq_map]
    simp only [List.map_cons, List.getD_cons_zero, List.map_map]
    have hc : ((fun j => (a :: t).getD j d) ∘ Nat.succ) = (fun j => t.getD j d) := by
      funext j
      simp [List.getD_cons_succ]
    rw [hc, ih]

/-- The value-collecting fold of `executeBatch` flattens the batch
(rows of width 28), prefixed by the accumulator. -/
theorem batchValues_foldl (batch : List (List Value)) :
    ∀ (acc : List Value), (∀ row ∈ batch, row.length = 28) →
      batch.foldl (fun acc row => acc ++ (List.range 28).map (fun j => row.getD j .vNull))
        acc = acc ++ batch.flatten := by
  induction batch with
  | nil => intro acc _; simp
  | cons r t ih =>
    intro acc hv
    have h28 : r.length = 28 := hv r (by simp)
    have hr : (List.range 28).map (fun j => r.getD j .vNull) = r := by
      rw [← h28]
      exact range_map_getD .vNull r
    simp only [List.foldl_cons, hr]
    rw [ih (acc ++ r) (fun row hrow => hv row (by simp [hrow]))]
    simp

/-- `batchValues` is exactly the rows' cells in row-major, field-major
order. -/
theorem batchValues_eq_flatten (batch : List (List Value))
    (hv : ∀ row ∈ batch, row.length = 28) : batchValues batch = batch.flatten := by
  have h := batchValues_foldl batch [] hv
  rw [List.nil_append] at h
  exact h

/-- Indexing the flat parameter list: entry `i * 28 + j` is field `j`
of row `i`. -/
theorem flatten_getD (batch : List (List Value)) :
    ∀ (hv : ∀ row ∈ batch, row.length = 28) (i j : Nat), i < batch.length → j < 28 →
      batch.flatten.getD (i * 28 + j) .vNull = (batch.getD i []).getD j .vNull := by
  induction batch with
  | nil =>
    intro _ i j hi _
    simp at hi
  | cons r t ih =>
    intro hv i j hi hj
    have h28 : r.length = 28 := hv r (by simp)
    cases i with
    | zero =>
      simp only [List.flatten_cons, List.getD_cons_zero, Nat.zero_mul, Nat.zero_add]
      exact List.getD_append r t.flatten .vNull j (by omega)
    | succ i' =>
      simp only [List.flatten_cons, List.getD_cons_succ]
      have hidx : (i' + 1) * 28 + j = r.length + (i' * 28 + j) := by
        rw [Nat.succ_mul]
        omega
      rw [hidx, List.getD_append_right r t.flatten .vNull _ (by omega)]
      have hsub : r.length + (i' * 28 + j) - r.length = i' * 28 + j := by omega
      rw [hsub]
      exact ih (fun row hrow => hv row (by simp [hrow])) i' j (by simpa using hi) hj

/-- Folding string pieces from a prefixed accumulator factors the
prefix out. -/
theorem foldl_append_pull (f : Nat → String) :
    ∀ (js : List Nat) (p a : String),
      js.foldl (fun acc j => acc ++ f j) (p ++ a) =
        p ++ js.foldl (fun acc j => acc ++ f j) a := by
  intro js
  induction js with
  | nil => intro p a; rfl
  | cons j t ih =>
    intro p a
    simp only [List.foldl_cons]
    rw [String.append_assoc]
    exact ih p (a ++ f j)

/-- For the non-first parameters (positive `j`) the comma branch of the
placeholder loop always fires; re-associate each step. -/
theorem placeholder_foldl_norm (g : Nat → String) :
    ∀ (js : List Nat) (a : String),
      js.foldl (fun x y => (if 0 < Nat.succ y then x ++ "," else x) ++ "$" ++ g y) a =
        js.foldl (fun x y => x ++ ("," ++ ("$" ++ g y))) a := by
  intro js
  induction js with
  | nil => intro a; rfl
  | cons j t ih =>
    intro a
    simp only [List.foldl_cons, if_pos (Nat.succ_pos j)]
    have hstep : a ++ "," ++ "$" ++ g j = a ++ ("," ++ ("$" ++ g j)) := by
      rw [String.append_assoc, String.append_assoc]
    rw [hstep]
    exact ih _

/-- Re-associate the separator steps of a `strings.Join` fold. -/
theorem foldl_sep_assoc (sep : String) (g : Nat → String) :
    ∀ (xs : List Nat) (a : String),
      xs.foldl (fun acc j => acc ++ sep ++ g j) a =
        xs.foldl (fun acc j => acc ++ (sep ++ g j)) a := by
  intro xs
  induction xs with
  | nil => intro a; rfl
  | cons j t ih =>
    intro a
    simp only [List.foldl_cons]
    rw [String.append_assoc]
    exact ih _

/-- Closed form of the placeholder group for row `i`: parameter `j` of
row `i` is bound to placeholder `$(i*28+j+1)`. -/
theorem rowPlaceholder_closed (i : Nat) :
    rowPlaceholder i =
      "(" ++ goStringsJoin ((List.range 28).map
        (fun j => "$" ++ toString (i * 28 + j + 1))) "," ++ ")" := by
  have hrange : List.range 28 = 0 :: (List.range 27).map Nat.succ :=
    List.range_succ_eq_map 27
  rw [rowPlaceholder, hrange]
  simp only [List.foldl_cons, List.map_cons, goStringsJoin, List.foldl_map]
  rw [if_neg (Nat.lt_irrefl 0)]
  rw [placeholder_foldl_norm (fun y => toString (i * 28 + Nat.succ y + 1))]
  rw [foldl_sep_assoc "," (fun y => "$" ++ toString (i * 28 + Nat.succ y + 1))]
  rw [String.append_assoc "(" "$" (toString (i * 28 + 0 + 1))]
  rw [foldl_append_pull (fun y => "," ++ ("$" ++ toString (i * 28 + Nat.succ y + 1)))]


/-- Width-28 rows contribute `28 * n` cells in total. -/
theorem sum_map_length_const (batch : List (List Value)) :
    (∀ row ∈ batch, row.length = 28) → (batch.map List.length).sum = 28 * batch.length := by
  induction batch with
  | nil => intro _; simp
  | cons r t ih =>
    intro hv
    simp only [List.map_cons, List.sum_cons, List.length_cons]
    rw [hv r (by simp), ih (fun row hrow => hv row (by simp [hrow]))]
    ring

/-- C5: for a non-empty batch of `n` width-28 rows, `executeBatch`
builds one insert statement binding exactly `n * 28` positional
parameters — the flat list holds the rows' cells in row-major,
field-major order, so parameter `$(i*28+j+1)` (placeholder of field `j`
of row `i`, as the query text shows) is bound to field `j` of row `i` —
and performs exactly one `Exec` call with that statement and list. -/
theorem c5_executeBatch_binding (exec : String → List Value → Option String)
    (batch : List (List Value)) (hne : batch ≠ [])
    (hv : ∀ row ∈ batch, row.length = 28) :
    batchValues batch = batch.flatten ∧
    (batchValues batch).length = 28 * batch.length ∧
    (∀ i j, i < batch.length → j < 28 →
      (batchValues batch).getD (i * 28 + j) .vNull = (batch.getD i []).getD j .vNull) ∧
    buildBatchQuery batch =
      queryHead ++ goStringsJoin ((List.range batch.length).map (fun i =>
        "(" ++ goStringsJoin ((List.range 28).map
          (fun j => "$" ++ toString (i * 28 + j + 1))) "," ++ ")")) "," ∧
    (executeBatch exec batch).2 = [(buildBatchQuery batch, batchValues batch)] := by
  refine ⟨batchValues_eq_flatten batch hv, ?_, ?_, ?_, ?_⟩
  · rw [batchValues_eq_flatten batch hv, List.length_flatten]
    exact sum_map_length_const batch hv
  · intro i j hi hj
    rw [batchValues_eq_flatten batch hv]
    exact flatten_getD batch hv i j hi hj
  · have hfun : rowPlaceholder = fun i =>
        "(" ++ goStringsJoin ((List.range 28).map
          (fun j => "$" ++ toString (i * 28 + j + 1))) "," ++ ")" :=
      funext rowPlaceholder_closed
    rw [buildBatchQuery, hfun]
  · have hbe : batch.isEmpty = false := by
      cases batch with
      | nil => exact absurd rfl hne
      | cons a t => rfl
    simp only [executeBatch, hbe, Bool.false_eq_true, if_false]
    cases hex : exec (buildBatchQuery batch) (batchValues batch) <;> simp [hex]

/-- Witness for C5: a two-row batch binds 56 parameters; cell (1,3) sits
at flat index 31, bound to `$32`. -/
theorem c5_witness :
    batchValues [List.replicate 28 (Value.vInt 1), List.replicate 28 Value.vNull] =
      [List.replicate 28 (Value.vInt 1), List.replicate 28 Value.vNull].flatten ∧
    (batchValues [List.replicate 28 (Value.vInt 1), List.replicate 28 Value.vNull]).length =
      28 * [List.replicate 28 (Value.vInt 1), List.replicate 28 Value.vNull].length ∧
    (batchValues [List.replicate 28 (Value.vInt 1),
        List.replicate 28 Value.vNull]).getD (1 * 28 + 3) .vNull =
      ([List.replicate 28 (Value.vInt 1), List.replicate 28 Value.vNull].getD 1 []).getD 3
        .vNull ∧
    buildBatchQuery [List.replicate 28 (Value.vInt 1), List.replicate 28 Value.vNull] =
      queryHead ++ goStringsJoin ((List.range
        [List.replicate 28 (Value.vInt 1), List.replicate 28 Value.vNull].length).map (fun i =>
        "(" ++ goStringsJoin ((List.range 28).map
          (fun j => "$" ++ toString (i * 28 + j + 1))) "," ++ ")")) "," ∧
    (executeBatch (fun _ _ => none)
        [List.replicate 28 (Value.vInt 1), List.replicate 28 Value.vNull]).2 =
      [(buildBatchQuery [List.replicate 28 (Value.vInt 1), List.replicate 28 Value.vNull],
        batchValues [List.replicate 28 (Value.vInt 1), List.replicate 28 Value.vNull])] :=
  ⟨(c5_executeBatch_binding (fun _ _ => none)
      [List.replicate 28 (Value.vInt 1), List.replicate 28 Value.vNull]
      (by decide) (by decide)).1,
   (c5_executeBatch_binding (fun _ _ => none)
      [List.replicate 28 (Value.vInt 1), List.replicate 28 Value.vNull]
      (by decide) (by decide)).2.1,
   (c5_executeBatch_binding (fun _ _ => none)
      [List.replicate 28 (Value.vInt 1), List.replicate 28 Value.vNull]
      (by decide) (by decide)).2.2.1 1 3 (by decide) (by decide),
   (c5_executeBatch_binding (fun _ _ => none)
      [List.replicate 28 (Value.vInt 1), List.replicate 28 Value.vNull]
      (by decide) (by decide)).2.2.2.1,
   (c5_executeBatch_binding (fun _ _ => none)
      [List.replicate 28 (Value.vInt 1), List.replicate 28 Value.vNull]
      (by decide) (by decide)).2.2.2.2⟩

/-! ## C6 — concurrent importer row-count conservation -/

/-- On all-valid input every record decodes, so the valid rows count the
records exactly. -/
theorem validRows_length_of_valid (l : List (List String)) :
    (∀ r ∈ l, r.length = 28) → (validRows l).length = l.length := by
  induction l with
  | nil => intro _; simp [validRows]
  | cons r t ih =>
    intro hv
    rw [validRows_cons_ok r t (decodedFields r) (parseRow_eq_ok r (hv r (by simp)))]
    simp only [List.length_cons]
    rw [ih (fun x hx => hv x (by simp [hx]))]

/-- Records a worker receives are records of the input file. -/
theorem workerRecords_mem (N : Nat) (assign : Nat → Fin N) (records : List (List String))
    (w : Fin N) (r : List String) (hr : r ∈ workerRecords N assign records w) :
    r ∈ records := by
  simp only [workerRecords, List.mem_map] at hr
  rcases hr with ⟨p, hp, rfl⟩
  exact List.snd_mem_of_mem_enum (List.mem_filter.mp hp).1

/-- Each indexed record is consumed by exactly one worker, so the
per-worker counts of any indexed list partition its length. -/
theorem sum_filter_assign_length (N : Nat) (assign : Nat → Fin N) :
    ∀ (l : List (Nat × List String)),
      (Finset.univ.sum fun w : Fin N => (l.filter (fun p => assign p.1 = w)).length) =
        l.length := by
  intro l
  induction l with
  | nil => simp
  | cons a t ih =>
    have hstep : ∀ w : Fin N, ((a :: t).filter (fun p => assign p.1 = w)).length =
        (if assign a.1 = w then 1 else 0) +
          (t.filter (fun p => assign p.1 = w)).length := by
      intro w
      by_cases hw : assign a.1 = w <;> simp [List.filter_cons, hw] <;> omega
    rw [Finset.sum_congr rfl (fun w _ => hstep w), Finset.sum_add_distrib, ih]
    simp [Finset.sum_ite_eq]
    omega

/-- C6: for any worker count `1 ≤ N ≤ 16`, any batch size ≥ 1, any
schedule of records to parser workers, and an all-valid input of `K`
records with no write failures, the concurrent importer's returned
total — the sum of all batch lengths pushed by all workers — equals
`K`. -/
theorem c6_concurrent_row_conservation (bs N : Nat) (assign : Nat → Fin N)
    (records : List (List String)) (hN1 : 1 ≤ N) (hN16 : N ≤ 16) (hbs : 1 ≤ bs)
    (hval : ∀ r ∈ records, r.length = 28) :
    goroutineTotal bs N assign records = records.length := by
  have hW : ∀ w : Fin N, ((workerBatches bs N assign records w).map List.length).sum =
      (workerRecords N assign records w).length := by
    intro w
    rw [workerBatches, ← List.length_flatten, chunkList_flatten]
    exact validRows_length_of_valid _
      (fun r hr => hval r (workerRecords_mem N assign records w r hr))
  rw [goroutineTotal, Finset.sum_congr rfl (fun w _ => hW w)]
  have hlen : ∀ w : Fin N, (workerRecords N assign records w).length =
      ((records.enum).filter (fun p => assign p.1 = w)).length := by
    intro w
    rw [workerRecords, List.length_map]
  rw [Finset.sum_congr rfl (fun w _ => hlen w), sum_filter_assign_length]
  exact List.enum_length

/-- Witness for C6: two workers, batch size 1, alternating schedule,
three valid records: total 3. -/
theorem c6_witness :
    goroutineTotal 1 2 (fun i => ⟨i % 2, Nat.mod_lt i (by decide)⟩)
      [List.replicate 28 "", List.replicate 28 "x", List.replicate 28 "y"] =
      [List.replicate 28 "", List.replicate 28 "x", List.replicate 28 "y"].length :=
  c6_concurrent_row_conservation 1 2 (fun i => ⟨i % 2, Nat.mod_lt i (by decide)⟩)
    [List.replicate 28 "", List.replicate 28 "x", List.replicate 28 "y"]
    (by decide) (by decide) (by decide) (by decide)
